import Mathlib

/-!
Verification development for the sf-schema-viewer backend core:
the in-memory session store (`backend/services/session.py`), the
Salesforce describe orchestrator (`backend/services/salesforce.py`)
and the Data Cloud entity pipeline (`backend/services/datacloud.py`),
shallowly embedded in Lean.  Wall-clock time is passed explicitly as a
natural number, randomness (generated tokens/identifiers) is passed
explicitly as arguments, and the vendor API is a parameter (an
environment record of response functions).
-/

/-- Python truthiness of an optional string: `None` and `""` are falsy,
every other string is truthy (`if refresh_token:` etc.). -/
def truthyOptStr : Option String → Bool
  | none => false
  | some s => s ≠ ""

/-- Lookup in a Python-dict model (association list in insertion order):
first binding of the key wins. -/
def dictGet {β : Type} (d : List (String × β)) (k : String) : Option β :=
  match d with
  | [] => none
  | (k', v) :: rest => if k' = k then some v else dictGet rest k

/-- `d[k] = v` on a Python-dict model: overwrite the binding in place if
the key is present, otherwise append a new binding at the end. -/
def dictInsert {β : Type} (d : List (String × β)) (k : String) (v : β) :
    List (String × β) :=
  if (dictGet d k).isSome then
    d.map (fun p => if p.1 = k then (k, v) else p)
  else
    d ++ [(k, v)]

namespace SessionSvc

/-- The `Session` dataclass of `backend/services/session.py`.
Timestamps are naturals, `api_urls` is a string-keyed dict model. -/
structure Session where
  session_id : String
  access_token : String
  refresh_token : Option String
  instance_url : String
  user_id : String
  username : String
  display_name : String
  email : String
  org_id : String
  created_at : Nat := 0
  expires_at : Option Nat := none
  first_name : Option String := none
  last_name : Option String := none
  timezone : Option String := none
  language : Option String := none
  locale : Option String := none
  user_type : Option String := none
  api_urls : Option (List (String × String)) := none
  org_name : Option String := none
  org_type : Option String := none
  instance_name : Option String := none
  deriving DecidableEq

/-- The mutable state of a `SessionStore`: the `_sessions` dict (modelled
extensionally as a map from identifier to optional session) and the
`_pending_states` dict (only its key set matters — the stored value is
always `""` — so it is modelled by its characteristic function). -/
structure SessionStore where
  sessions : String → Option Session
  pending_states : String → Bool

/-- `SessionStore.delete_session`: remove the entry if present, return
whether it existed. -/
def deleteSession (st : SessionStore) (session_id : String) :
    Bool × SessionStore :=
  if (st.sessions session_id).isSome then
    (true,
     { st with
       sessions := fun k => if k = session_id then none else st.sessions k })
  else
    (false, st)

/-- `SessionStore.get_session`: look up by identifier; if found and
`expires_at` is set and strictly in the past, delete the session and
return `none`; otherwise return the stored session unchanged.  `now` is
the value of `datetime.now()` at the moment of the check. -/
def getSession (st : SessionStore) (session_id : String) (now : Nat) :
    Option Session × SessionStore :=
  match st.sessions session_id with
  | some session =>
    match session.expires_at with
    | some e =>
      if now > e then (none, (deleteSession st session_id).2)
      else (some session, st)
    | none => (some session, st)
  | none => (none, st)

/-- `SessionStore.update_tokens`: for an existing session overwrite the
access token in place, overwrite the refresh token only when the
supplied value is truthy (`if refresh_token:` — absent and empty-string
values are both falsy), and return `true`; return `false` untouched for
an unknown identifier. -/
def updateTokens (st : SessionStore) (session_id : String)
    (access_token : String) (refresh_token : Option String) :
    Bool × SessionStore :=
  match st.sessions session_id with
  | some session =>
    let session' :=
      { session with
        access_token := access_token
        refresh_token :=
          if truthyOptStr refresh_token then refresh_token
          else session.refresh_token }
    (true,
     { st with
       sessions := fun k =>
         if k = session_id then some session' else st.sessions k })
  | none => (false, st)

/-- `SessionStore.update_org_info`: for an existing session overwrite
each of the three org fields only when the supplied value is truthy, and
return `true`; return `false` untouched for an unknown identifier. -/
def updateOrgInfo (st : SessionStore) (session_id : String)
    (org_name org_type instance_name : Option String) :
    Bool × SessionStore :=
  match st.sessions session_id with
  | some session =>
    let session' :=
      { session with
        org_name :=
          if truthyOptStr org_name then org_name else session.org_name
        org_type :=
          if truthyOptStr org_type then org_type else session.org_type
        instance_name :=
          if truthyOptStr instance_name then instance_name
          else session.instance_name }
    (true,
     { st with
       sessions := fun k =>
         if k = session_id then some session' else st.sessions k })
  | none => (false, st)

/-- `SessionStore.create_oauth_state`: record the freshly generated
token (passed explicitly, modelling `secrets.token_urlsafe(32)`) as a
pending state and return the updated store. -/
def createOauthState (st : SessionStore) (state : String) : SessionStore :=
  { st with
    pending_states := fun k => if k = state then true else st.pending_states k }

/-- `SessionStore.validate_oauth_state`: if the state is pending, remove
it and return `true`; otherwise return `false` without touching the
store. -/
def validateOauthState (st : SessionStore) (state : String) :
    Bool × SessionStore :=
  if st.pending_states state then
    (true,
     { st with
       pending_states := fun k =>
         if k = state then false else st.pending_states k })
  else
    (false, st)

end SessionSvc

namespace SF

/-- A transformed single-object describe (`_transform_describe` output).
The claims under verification depend only on the orchestration of
`describe_objects`/`list_objects`, not on the (mechanical, excluded by
the spec) field-by-field mapping, so the describe record is kept to the
fields the claims mention. -/
structure ObjectDescribe where
  name : String
  label : String := ""
  deriving DecidableEq

/-- The JSON body of a failed sub-request inside a composite response:
either a JSON array (each element's optional `message` field) or a
non-array value together with its Python `str()` rendering. -/
inductive ErrorBody where
  | jsonList (msgs : List (Option String))
  | nonList (s : String)
  deriving DecidableEq

/-- The error-message extraction of `describe_objects` for a failed
sub-request: first element's `message` when the body is a non-empty
list (`"Unknown error"` when that element has no message), otherwise
`str(error_body)` (`"[]"` for the empty list). -/
def extractErrorMsg : ErrorBody → String
  | .jsonList [] => "[]"
  | .jsonList (some m :: _) => m
  | .jsonList (none :: _) => "Unknown error"
  | .nonList s => s

/-- Outcome of one sub-request inside a composite response:
`httpStatusCode == 200` with a (transformed) describe body, or a
non-200 status with an error body. -/
inductive ItemOutcome where
  | success (d : ObjectDescribe)
  | failure (body : ErrorBody)
  deriving DecidableEq

/-- One element of the `compositeResponse` array. -/
structure CompositeItem where
  referenceId : String
  outcome : ItemOutcome
  deriving DecidableEq

/-- Outcome of one composite call: the whole call raised, or it
returned a `compositeResponse` array. -/
inductive CompositeResult where
  | raised
  | response (items : List CompositeItem)
  deriving DecidableEq

/-- An exception raised by `describe_object` in the sequential
fallback: a `SalesforceError` or any other exception. -/
inductive SfException where
  | salesforceError (msg : String)
  | otherError (msg : String)
  deriving DecidableEq

/-- The error message recorded for a failed sequential `describe_object`
call: `str(se)` for a `SalesforceError`, `"Unexpected error: ..."` for
anything else. -/
def seqErrorMsg : SfException → String
  | .salesforceError m => m
  | .otherError m => "Unexpected error: " ++ m

/-- The vendor API as seen by `describe_objects`: the outcome of the
composite call on a given batch, and the outcome of a single-object
describe (with `_transform_describe` already applied to successful
bodies — that transformation is pure and total, so composing it into
the environment loses nothing). -/
structure VendorEnv where
  composite : List String → CompositeResult
  describeObject : String → Except SfException ObjectDescribe

/-- One vendor call issued by `describe_objects`: a composite request
for a batch, or a single-object describe in the sequential fallback. -/
inductive VendorCall where
  | compositeCall (batch : List String)
  | describeCall (name : String)
  deriving DecidableEq

/-- Running state of `describe_objects`: the `results` list, the
`errors` dict, and the trace of vendor calls issued so far. -/
structure BatchState where
  results : List ObjectDescribe := []
  errors : List (String × String) := []
  calls : List VendorCall := []
  deriving DecidableEq

/-- Processing of one element of a composite response: a 200 status
appends the transformed body to `results`, anything else records the
extracted error message under the element's `referenceId`. -/
def applyItem (st : BatchState) (it : CompositeItem) : BatchState :=
  match it.outcome with
  | .success d => { st with results := st.results ++ [d] }
  | .failure body =>
    { st with errors := dictInsert st.errors it.referenceId (extractErrorMsg body) }

/-- Processing of a whole `compositeResponse` array, in order. -/
def processItems (st : BatchState) : List CompositeItem → BatchState
  | [] => st
  | it :: rest => processItems (applyItem st it) rest

/-- One step of the sequential fallback: issue `describe_object(name)`;
on success append to `results`, on an exception record the message
under `name`. -/
def applySeq (env : VendorEnv) (st : BatchState) (name : String) : BatchState :=
  let st' := { st with calls := st.calls ++ [VendorCall.describeCall name] }
  match env.describeObject name with
  | .ok d => { st' with results := st'.results ++ [d] }
  | .error e => { st' with errors := dictInsert st'.errors name (seqErrorMsg e) }

/-- The sequential fallback over a batch, in order. -/
def processSeq (env : VendorEnv) (st : BatchState) : List String → BatchState
  | [] => st
  | n :: rest => processSeq env (applySeq env st n) rest

/-- Processing of one batch of `describe_objects`: issue the composite
call; walk the composite response if it returned, fall back to
sequential describes over the whole batch if it raised. -/
def processBatch (env : VendorEnv) (st : BatchState) (batch : List String) :
    BatchState :=
  let st' := { st with calls := st.calls ++ [VendorCall.compositeCall batch] }
  match env.composite batch with
  | .response items => processItems st' items
  | .raised => processSeq env st' batch

/-- All batches, in order. -/
def processBatches (env : VendorEnv) (st : BatchState) :
    List (List String) → BatchState
  | [] => st
  | b :: rest => processBatches env (processBatch env st b) rest

/-- The batch split of `describe_objects`:
`for i in range(0, len(object_names), 25): batch = object_names[i:i+25]`. -/
def chunks25 : List String → List (List String)
  | [] => []
  | x :: xs => ((x :: xs).take 25) :: chunks25 ((x :: xs).drop 25)
  termination_by l => l.length
  decreasing_by
    simp [List.length_drop]
    omega

/-- `SalesforceService.describe_objects`: early return on an empty input
list, otherwise process the input in batches of at most 25. -/
def describe_objects (env : VendorEnv) (object_names : List String) :
    BatchState :=
  if object_names.isEmpty then {}
  else processBatches env {} (chunks25 object_names)

/-- Names of the describes collected in `results`. -/
def resultNames (st : BatchState) : List String :=
  st.results.map ObjectDescribe.name

/-- Key set (in insertion order) of the `errors` dict. -/
def errorNames (st : BatchState) : List String :=
  st.errors.map Prod.fst

/-- The batches of the composite calls issued, in order. -/
def compositeBatchesOf (calls : List VendorCall) : List (List String) :=
  calls.filterMap (fun c =>
    match c with
    | .compositeCall b => some b
    | .describeCall _ => none)

/-- The composite response for a batch, when the call returns at all,
carries exactly one element per sub-request, with matching
`referenceId`s in order (the vendor contract for the composite API). -/
def WellFormedResponse (env : VendorEnv) (batch : List String) : Prop :=
  ∀ items, env.composite batch = .response items →
    items.map CompositeItem.referenceId = batch

/-- A successful describe body is a describe of the requested object:
inside a composite response the transformed body's name is the
`referenceId` of its sub-request, and a successful `describe_object(n)`
returns a describe named `n` (the vendor contract for describes). -/
def NameCoherent (env : VendorEnv) : Prop :=
  (∀ batch items, env.composite batch = .response items →
    ∀ it ∈ items, ∀ d, it.outcome = .success d → d.name = it.referenceId) ∧
  (∀ name d, env.describeObject name = .ok d → d.name = name)

/-- Monotone growth of the `describe_objects` running state: results,
recorded error names and issued calls are only ever added to. -/
def StLe (s t : BatchState) : Prop :=
  s.results ⊆ t.results ∧ errorNames s ⊆ errorNames t ∧ s.calls ⊆ t.calls

end SF

namespace SF

/-- One raw entry of the vendor global-describe `sobjects` array, kept
to the fields `list_objects` inspects (the remaining mapping is the
mechanical field copy excluded by the spec). -/
structure RawSObject where
  name : String
  label : String
  custom : Bool := false
  deriving DecidableEq

/-- The corresponding `ObjectBasicInfo` record. -/
structure ObjectBasicInfo where
  name : String
  label : String
  custom : Bool := false
  deriving DecidableEq

/-- The filter-and-map loop of `list_objects`: skip every object whose
label starts with `"__MISSING"`, map the rest to basic-info records. -/
def transformSObjects (sobjects : List RawSObject) : List ObjectBasicInfo :=
  (sobjects.filter (fun o => !(o.label.startsWith "__MISSING"))).map
    (fun o => { name := o.name, label := o.label, custom := o.custom })

/-- The module-level `_objects_cache` (`cachetools.TTLCache` with
`ttl=300`), modelled as a dict from cache key to value plus insertion
time. -/
def ObjectsCache : Type := List (String × (List ObjectBasicInfo × Nat))

/-- TTLCache read at time `now`: a key is a hit only while
`now < insertion time + 300`; an older entry behaves as absent. -/
def cacheLookup (cache : ObjectsCache) (key : String) (now : Nat) :
    Option (List ObjectBasicInfo) :=
  match dictGet cache key with
  | some (v, t) => if now < t + 300 then some v else none
  | none => none

/-- TTLCache write at time `now`. -/
def cachePut (cache : ObjectsCache) (key : String)
    (v : List ObjectBasicInfo) (now : Nat) : ObjectsCache :=
  dictInsert cache key (v, now)

/-- The identity of a `SalesforceService` as far as `list_objects` is
concerned: the pieces of its cache key. -/
structure SFService where
  instance_url : String
  api_version : String
  deriving DecidableEq

/-- `f"{self.instance_url}:{self.api_version}"`. -/
def cacheKey (svc : SFService) : String :=
  svc.instance_url ++ ":" ++ svc.api_version

/-- `SalesforceService.list_objects`.  `sobjects` is the vendor's
global-describe result (the vendor state), `now` the time of the call.
Returns the object list, the cache after the call, and the number of
vendor global-describe calls issued (0 on a cache hit, 1 otherwise). -/
def list_objects (svc : SFService) (sobjects : List RawSObject)
    (cache : ObjectsCache) (now : Nat) (use_cache : Bool) :
    List ObjectBasicInfo × ObjectsCache × Nat :=
  let key := cacheKey svc
  let hit := if use_cache then cacheLookup cache key now else none
  match hit with
  | some objs => (objs, cache, 0)
  | none =>
    let objs := transformSObjects sobjects
    (objs, cachePut cache key objs now, 1)

end SF

namespace DC

/-- A Data Cloud entity basic-info record
(`DataCloudEntityBasicInfo`). -/
structure DataCloudEntityBasicInfo where
  name : String
  display_name : String
  entity_type : String := "DataModelObject"
  category : Option String := none
  description : Option String := none
  is_standard : Bool := false
  deriving DecidableEq

/-- One step of the de-duplicating merge loop of `_list_dmo_entities`:
append the entity and record its name unless the name was already
seen. -/
def dedupStep (s : List DataCloudEntityBasicInfo × List String)
    (e : DataCloudEntityBasicInfo) :
    List DataCloudEntityBasicInfo × List String :=
  if e.name ∈ s.2 then s else (s.1 ++ [e], s.2 ++ [e.name])

/-- The merge loop over one fetch path's list, carrying the shared
`entities`/`seen_names` accumulator. -/
def mergeInto (l : List DataCloudEntityBasicInfo)
    (s : List DataCloudEntityBasicInfo × List String) :
    List DataCloudEntityBasicInfo × List String :=
  match l with
  | [] => s
  | e :: rest => mergeInto rest (dedupStep s e)

/-- `DataCloudService._list_dmo_entities`: merge the data-graph fetch
path and then the metadata-API fetch path into one list, de-duplicated
by entity name with the first-encountered record kept.  Each fetch path
runs only when Data Cloud credentials are present, and an exception
from a fetch path is swallowed (that path contributes nothing). -/
def _list_dmo_entities (hasCreds : Bool)
    (graphResult metadataResult : Except String (List DataCloudEntityBasicInfo)) :
    List DataCloudEntityBasicInfo :=
  let s0 : List DataCloudEntityBasicInfo × List String := ([], [])
  let s1 :=
    if hasCreds then
      match graphResult with
      | .ok l => mergeInto l s0
      | .error _ => s0
    else s0
  let s2 :=
    if hasCreds then
      match metadataResult with
      | .ok l => mergeInto l s1
      | .error _ => s1
    else s1
  s2.1

end DC

namespace DC

/-- One raw field dict of a Data Cloud entity describe.  `none` models
an absent JSON key (each `field.get(...)` default is applied in the
transformer). -/
structure RawDCField where
  name : Option String := none
  displayName : Option String := none
  dataType : Option String := none
  typeKey : Option String := none
  isPrimaryKey : Bool := false
  isForeignKey : Bool := false
  isRequired : Bool := false
  referenceTo : Option String := none
  keyQualifier : Option String := none
  description : Option String := none
  length : Option Nat := none
  precision : Option Nat := none
  scale : Option Nat := none
  deriving DecidableEq

/-- The transformed `DataCloudFieldInfo` record. -/
structure DataCloudFieldInfo where
  name : String
  display_name : String
  data_type : String
  is_primary_key : Bool := false
  is_foreign_key : Bool := false
  is_required : Bool := false
  reference_to : Option String := none
  key_qualifier : Option String := none
  description : Option String := none
  length : Option Nat := none
  precision : Option Nat := none
  scale : Option Nat := none
  deriving DecidableEq

/-- The per-field mapping of `_transform_entity_describe`
(`field.get("name", "")`, `field.get("displayName", field.get("name",
""))`, `field.get("dataType", field.get("type", "Unknown"))`, boolean
flags defaulting to `False`, pass-through optionals). -/
def transformField (f : RawDCField) : DataCloudFieldInfo :=
  { name := f.name.getD ""
    display_name := f.displayName.getD (f.name.getD "")
    data_type := f.dataType.getD (f.typeKey.getD "Unknown")
    is_primary_key := f.isPrimaryKey
    is_foreign_key := f.isForeignKey
    is_required := f.isRequired
    reference_to := f.referenceTo
    key_qualifier := f.keyQualifier
    description := f.description
    length := f.length
    precision := f.precision
    scale := f.scale }

/-- One raw relationship dict of a Data Cloud entity describe. -/
structure RawDCRel where
  name : Option String := none
  fromField : Option String := none
  toEntity : Option String := none
  toField : Option String := none
  relationshipType : Option String := none
  deriving DecidableEq

/-- The transformed `DataCloudRelationshipInfo` record. -/
structure DataCloudRelationshipInfo where
  name : String
  from_field : String
  to_entity : String
  to_field : String
  relationship_type : Option String := none
  deriving DecidableEq

/-- The per-relationship mapping of `_transform_entity_describe`. -/
def transformRel (r : RawDCRel) : DataCloudRelationshipInfo :=
  { name := r.name.getD ""
    from_field := r.fromField.getD ""
    to_entity := r.toEntity.getD ""
    to_field := r.toField.getD ""
    relationship_type := r.relationshipType }

/-- One element of the raw top-level `primaryKeys` array: a dict with
an optional `name`, a bare string, or any other JSON value (which the
loop skips). -/
inductive RawPrimaryKey where
  | pkObject (name : Option String)
  | pkString (s : String)
  | pkOther
  deriving DecidableEq

/-- A raw Data Cloud entity describe, after response-shape
normalization. -/
structure RawDCEntity where
  name : Option String := none
  displayName : Option String := none
  entityType : Option String := none
  category : Option String := none
  description : Option String := none
  isStandard : Bool := false
  fields : List RawDCField := []
  relationships : List RawDCRel := []
  primaryKeys : List RawPrimaryKey := []
  deriving DecidableEq

/-- The transformed `DataCloudEntityDescribe` record. -/
structure DataCloudEntityDescribe where
  name : String
  display_name : String
  entity_type : String
  category : Option String := none
  description : Option String := none
  is_standard : Bool := false
  fields : List DataCloudFieldInfo := []
  relationships : List DataCloudRelationshipInfo := []
  primary_keys : List String := []
  deriving DecidableEq

/-- The implicit relationship synthesized from a foreign-key field:
named `field.name + "_rel"`, pointing from the field to the referenced
entity, with an empty target field and type `"ForeignKey"`. -/
def synthRelOf (f : DataCloudFieldInfo) : DataCloudRelationshipInfo :=
  { name := f.name ++ "_rel"
    from_field := f.name
    to_entity := f.reference_to.getD ""
    to_field := ""
    relationship_type := some "ForeignKey" }

/-- One iteration of the foreign-key synthesis loop of
`_transform_entity_describe`: for a field flagged as a foreign key with
a truthy `reference_to`, append the implicit relationship named
`field.name + "_rel"` unless a relationship of that name is already in
the (growing) list; otherwise leave the list alone. -/
def synthStep (rels : List DataCloudRelationshipInfo)
    (f : DataCloudFieldInfo) : List DataCloudRelationshipInfo :=
  if f.is_foreign_key ∧ truthyOptStr f.reference_to then
    if rels.any (fun r => r.name == f.name ++ "_rel") then rels
    else rels ++ [synthRelOf f]
  else rels

/-- The foreign-key synthesis loop of `_transform_entity_describe`,
over all fields in order. -/
def synthFkRels (fields : List DataCloudFieldInfo)
    (rels : List DataCloudRelationshipInfo) : List DataCloudRelationshipInfo :=
  fields.foldl synthStep rels

/-- The `primaryKeys` fallback loop: collect `pk.get("name", "")` from
dict elements and bare strings as-is, skipping anything else. -/
def rawPrimaryKeyNames (pks : List RawPrimaryKey) : List String :=
  pks.foldl
    (fun acc pk =>
      match pk with
      | .pkObject n => acc ++ [n.getD ""]
      | .pkString s => acc ++ [s]
      | .pkOther => acc)
    []

/-- `DataCloudService._transform_entity_describe`: map fields, collect
field-level primary keys, map explicit relationships, synthesize
implicit foreign-key relationships, and fall back to the top-level
`primaryKeys` array when no field-level primary key was flagged. -/
def _transform_entity_describe (entity : RawDCEntity) :
    DataCloudEntityDescribe :=
  let fields := entity.fields.map transformField
  let primary_keys :=
    (fields.filter (fun f => f.is_primary_key)).map (fun f => f.name)
  let relationships := entity.relationships.map transformRel
  let relationships := synthFkRels fields relationships
  let primary_keys :=
    if primary_keys.isEmpty then rawPrimaryKeyNames entity.primaryKeys
    else primary_keys
  { name := entity.name.getD ""
    display_name := entity.displayName.getD (entity.name.getD "")
    entity_type := entity.entityType.getD "DataModelObject"
    category := entity.category
    description := entity.description
    is_standard := entity.isStandard
    fields := fields
    relationships := relationships
    primary_keys := primary_keys }

end DC

open SessionSvc

/-- A concrete session used to instantiate the session-store theorems:
it expires at time 100 and holds a refresh token `"r0"`. -/
def demoSession : Session :=
  { session_id := "sid1"
    access_token := "a0"
    refresh_token := some "r0"
    instance_url := "https://na1.example"
    user_id := "u1"
    username := "alice"
    display_name := "Alice"
    email := "alice@example.com"
    org_id := "org1"
    created_at := 0
    expires_at := some 100 }

/-- A concrete store holding exactly `demoSession` under `"sid1"` and no
pending OAuth states. -/
def demoStore : SessionStore :=
  { sessions := fun k => if k = "sid1" then some demoSession else none
    pending_states := fun _ => false }

/-- A vendor environment whose composite call always returns a
well-formed response: success (a describe named after the sub-request)
for every name except `"Bad__c"`, a per-item error for `"Bad__c"`. -/
def mixedEnv : SF.VendorEnv :=
  { composite := fun batch =>
      .response (batch.map (fun n =>
        { referenceId := n
          outcome :=
            if n = "Bad__c" then
              .failure (.jsonList [some "NOT_FOUND: bad object"])
            else .success { name := n } }))
    describeObject := fun n =>
      if n = "Bad__c" then .error (.salesforceError "NOT_FOUND: bad object")
      else .ok { name := n } }

/-- A vendor environment whose composite call always raises, with the
same single-object describe behaviour as `mixedEnv`. -/
def failingEnv : SF.VendorEnv :=
  { composite := fun _ => .raised
    describeObject := fun n =>
      if n = "Bad__c" then .error (.salesforceError "NOT_FOUND: bad object")
      else .ok { name := n } }

/-- 30 distinct object names, to instantiate the batching theorem. -/
def names30 : List String := (List.range 30).map (fun i => "Obj" ++ toString i)

/-- 26 names with `"Dup__c"` duplicated at positions 0 and 25, so that
the two occurrences land in different batches of 25. -/
def dupNames : List String :=
  "Dup__c" :: ((List.range 24).map (fun i => "Fill" ++ toString i)) ++ ["Dup__c"]

/-- A vendor environment where every full batch gets a successful
composite response but the composite call on a singleton batch raises
(a transient transport failure), and the sequential fallback then fails
too. -/
def dupEnv : SF.VendorEnv :=
  { composite := fun batch =>
      if batch.length ≤ 1 then .raised
      else .response (batch.map (fun n => { referenceId := n, outcome := .success { name := n } }))
    describeObject := fun _ => .error (.otherError "connection reset") }

/-- A concrete service identity for the cache theorem. -/
def demoSvc : SF.SFService :=
  { instance_url := "https://na1.example", api_version := "v62.0" }

/-- A concrete vendor global-describe result: one ordinary object and
one vendor placeholder (label starting with `"__MISSING"`). -/
def demoSObjects : List SF.RawSObject :=
  [{ name := "Account", label := "Account" },
   { name := "Sys__x", label := "__MISSING LABEL ph" }]

/-- Data-graph fetch-path record for `Account__dlm`. -/
def dmoGraphAccount : DC.DataCloudEntityBasicInfo :=
  { name := "Account__dlm", display_name := "Account (graph)" }

/-- Metadata fetch-path record for the same `Account__dlm` name. -/
def dmoMetaAccount : DC.DataCloudEntityBasicInfo :=
  { name := "Account__dlm", display_name := "Account (metadata)" }

/-- Metadata fetch-path record for `Contact__dlm`. -/
def dmoMetaContact : DC.DataCloudEntityBasicInfo :=
  { name := "Contact__dlm", display_name := "Contact" }

/-- A concrete raw Data Cloud entity: a foreign-key field referencing
`Account__dlm` with no explicit relationship of the derived name, one
primary-key field, and one unrelated explicit relationship. -/
def demoEntity : DC.RawDCEntity :=
  { name := some "Order__dlm"
    fields :=
      [{ name := some "AccountId__c", isForeignKey := true,
         referenceTo := some "Account__dlm" },
       { name := some "Id__c", isPrimaryKey := true }]
    relationships :=
      [{ name := some "OtherRel", fromField := some "X__c",
         toEntity := some "Y__dlm", toField := some "Id__c" }] }

/-- C3: a state token returned by `create_oauth_state` validates true on
its first `validate_oauth_state` call and is removed by it; the
immediately following call with the same token returns false and leaves
the store untouched; and validating a value that is not pending returns
false without modifying the store. -/
theorem C3_oauth_state_single_use (st : SessionStore) (s t : String)
    (ht : st.pending_states t = false) :
    (validateOauthState (createOauthState st s) s).1 = true ∧
    (validateOauthState (createOauthState st s) s).2.pending_states s = false ∧
    validateOauthState (validateOauthState (createOauthState st s) s).2 s =
      (false, (validateOauthState (createOauthState st s) s).2) ∧
    validateOauthState st t = (false, st) := by
  constructor
  · simp [validateOauthState, createOauthState]
  constructor
  · simp [validateOauthState, createOauthState]
  constructor
  · simp [validateOauthState, createOauthState]
  · simp [validateOauthState, ht]

/-- Witness for C3 at a concrete store and concrete tokens. -/
theorem C3_oauth_state_single_use_witness :
    demoStore.pending_states "tok2" = false ∧
    ((validateOauthState (createOauthState demoStore "tok1") "tok1").1 = true ∧
     (validateOauthState (createOauthState demoStore "tok1") "tok1").2.pending_states "tok1" = false ∧
     validateOauthState (validateOauthState (createOauthState demoStore "tok1") "tok1").2 "tok1" =
       (false, (validateOauthState (createOauthState demoStore "tok1") "tok1").2) ∧
     validateOauthState demoStore "tok2" = (false, demoStore)) :=
  ⟨rfl, C3_oauth_state_single_use demoStore "tok1" "tok2" rfl⟩

/-- C4: for a stored session, `get_session` at a time strictly past its
expiry returns absent, deletes the entry, and every subsequent
`get_session` with the same identifier (at any time) also returns
absent without further change; at a time not past its expiry it returns
the stored session unchanged and leaves the store unchanged. -/
theorem C4_get_session_expiry (st : SessionStore) (sid : String)
    (s : Session) (now : Nat) (hs : st.sessions sid = some s) :
    ((∃ e, s.expires_at = some e ∧ e < now) →
      (getSession st sid now).1 = none ∧
      (getSession st sid now).2.sessions sid = none ∧
      ∀ now2, getSession (getSession st sid now).2 sid now2 =
        (none, (getSession st sid now).2)) ∧
    ((∀ e, s.expires_at = some e → now ≤ e) →
      getSession st sid now = (some s, st)) := by
  constructor
  · rintro ⟨e, he, hlt⟩
    have h1 : getSession st sid now = (none, (deleteSession st sid).2) := by
      simp [getSession, hs, he, hlt]
    have h2 : (deleteSession st sid).2.sessions sid = none := by
      simp [deleteSession, hs]
    refine ⟨by rw [h1], by rw [h1]; exact h2, ?_⟩
    intro now2
    rw [h1]
    simp [getSession, h2]
  · intro hle
    match hexp : s.expires_at with
    | none => simp [getSession, hs, hexp]
    | some e =>
      have := hle e hexp
      simp [getSession, hs, hexp]
      omega

/-- Witness for C4: `demoSession` expires at 100; reading at 200
tombstones it, a later read at 300 still misses, and reading at 50
returns it unchanged. -/
theorem C4_get_session_expiry_witness :
    demoStore.sessions "sid1" = some demoSession ∧
    ((getSession demoStore "sid1" 200).1 = none ∧
     (getSession demoStore "sid1" 200).2.sessions "sid1" = none ∧
     getSession (getSession demoStore "sid1" 200).2 "sid1" 300 =
       (none, (getSession demoStore "sid1" 200).2)) ∧
    getSession demoStore "sid1" 50 = (some demoSession, demoStore) := by
  have h200 := C4_get_session_expiry demoStore "sid1" demoSession 200 rfl
  have h50 := C4_get_session_expiry demoStore "sid1" demoSession 50 rfl
  refine ⟨rfl, ?_, ?_⟩
  · have := h200.1 ⟨100, rfl, by omega⟩
    exact ⟨this.1, this.2.1, this.2.2 300⟩
  · refine h50.2 ?_
    intro e he
    have h100 : e = 100 := by
      simpa [demoSession] using he.symm
    omega

/-- Counterexample to C6 as stated: `demoSession` stores refresh token
`"r0"`; calling `update_tokens` with the non-absent refresh value
`some ""` returns true but leaves the stored refresh token `"r0"` —
the code overwrites only on a *truthy* (non-absent and non-empty)
value, not on every non-absent one. -/
theorem C6_update_tokens_counterexample :
    (some "" : Option String) ≠ none ∧
    (updateTokens demoStore "sid1" "a1" (some "")).1 = true ∧
    ((updateTokens demoStore "sid1" "a1" (some "")).2.sessions "sid1").map
      Session.refresh_token = some (some "r0") ∧
    (some "r0" : Option String) ≠ some "" := by
  refine ⟨by decide, ?_, ?_, by decide⟩
  · simp [updateTokens, demoStore]
  · simp [updateTokens, demoStore, truthyOptStr, demoSession]

/-- C6 (amended): for an existing session, `update_tokens` overwrites
the access token, overwrites the refresh token exactly when the
supplied value is non-absent *and non-empty*, leaves every other
session field unchanged (the stored session equals the old one with
only those two fields replaced), leaves other identifiers and the
pending-state set untouched, and returns true; for a non-existent
session it returns false and changes nothing. -/
theorem C6_update_tokens (st : SessionStore) (sid access : String)
    (refresh : Option String) :
    (∀ s, st.sessions sid = some s →
      (updateTokens st sid access refresh).1 = true ∧
      (updateTokens st sid access refresh).2.sessions sid =
        some { s with
               access_token := access
               refresh_token :=
                 if truthyOptStr refresh then refresh else s.refresh_token } ∧
      (∀ k, k ≠ sid → (updateTokens st sid access refresh).2.sessions k =
        st.sessions k) ∧
      (updateTokens st sid access refresh).2.pending_states =
        st.pending_states) ∧
    (st.sessions sid = none → updateTokens st sid access refresh = (false, st)) := by
  constructor
  · intro s hs
    refine ⟨by simp [updateTokens, hs], by simp [updateTokens, hs], ?_, ?_⟩
    · intro k hk
      simp [updateTokens, hs, hk]
    · simp [updateTokens, hs]
  · intro hnone
    simp [updateTokens, hnone]

/-- Witness for C6 (amended) at a concrete store: a non-empty refresh
value is written, other keys and the pending set are untouched, and an
unknown identifier yields false with no change. -/
theorem C6_update_tokens_witness :
    demoStore.sessions "sid1" = some demoSession ∧
    (updateTokens demoStore "sid1" "a1" (some "r1")).1 = true ∧
    (updateTokens demoStore "sid1" "a1" (some "r1")).2.sessions "sid1" =
      some { demoSession with access_token := "a1", refresh_token := some "r1" } ∧
    (updateTokens demoStore "sid1" "a1" (some "r1")).2.sessions "other" =
      demoStore.sessions "other" ∧
    updateTokens demoStore "nope" "a1" (some "r1") = (false, demoStore) := by
  have h := C6_update_tokens demoStore "sid1" "a1" (some "r1")
  have h1 := h.1 demoSession rfl
  have hmiss := (C6_update_tokens demoStore "nope" "a1" (some "r1")).2 rfl
  refine ⟨rfl, h1.1, ?_, h1.2.2.1 "other" (by decide), hmiss⟩
  rw [h1.2.1]
  decide

/-- C10: the expiry check lives only on the `get_session` read path —
for a session still present in the store whose `expires_at` is already
in the past, `update_tokens` and `update_org_info` both still return
true and mutate the stored session in place. -/
theorem C10_updates_ignore_expiry (st : SessionStore) (sid : String)
    (s : Session) (e now : Nat) (access : String)
    (refresh org_name org_type instName : Option String)
    (hs : st.sessions sid = some s) (he : s.expires_at = some e)
    (hpast : e < now) :
    (updateTokens st sid access refresh).1 = true ∧
    (updateTokens st sid access refresh).2.sessions sid =
      some { s with
             access_token := access
             refresh_token :=
               if truthyOptStr refresh then refresh else s.refresh_token } ∧
    (updateOrgInfo st sid org_name org_type instName).1 = true ∧
    (updateOrgInfo st sid org_name org_type instName).2.sessions sid =
      some { s with
             org_name := if truthyOptStr org_name then org_name else s.org_name
             org_type := if truthyOptStr org_type then org_type else s.org_type
             instance_name :=
               if truthyOptStr instName then instName else s.instance_name } := by
  refine ⟨?_, ?_, ?_, ?_⟩ <;> simp [updateTokens, updateOrgInfo, hs]

/-- Witness for C10: `demoSession` expired at 100 < 200, yet both
updates succeed and write through. -/
theorem C10_updates_ignore_expiry_witness :
    demoStore.sessions "sid1" = some demoSession ∧
    demoSession.expires_at = some 100 ∧ 100 < 200 ∧
    ((updateTokens demoStore "sid1" "a1" none).1 = true ∧
     (updateTokens demoStore "sid1" "a1" none).2.sessions "sid1" =
       some { demoSession with access_token := "a1" } ∧
     (updateOrgInfo demoStore "sid1" (some "Acme") none none).1 = true ∧
     (updateOrgInfo demoStore "sid1" (some "Acme") none none).2.sessions "sid1" =
       some { demoSession with org_name := some "Acme" }) := by
  have h := C10_updates_ignore_expiry demoStore "sid1" demoSession 100 200 "a1"
    none (some "Acme") none none rfl rfl (by omega)
  refine ⟨rfl, rfl, by omega, h.1, ?_, h.2.2.1, ?_⟩
  · rw [h.2.1]; decide
  · rw [h.2.2.2]; decide

theorem dictGet_append_of_none {β : Type} (d1 d2 : List (String × β)) (k : String)
    (h : dictGet d1 k = none) : dictGet (d1 ++ d2) k = dictGet d2 k := by
  induction d1 with
  | nil => rfl
  | cons p rest ih =>
    obtain ⟨k', v⟩ := p
    by_cases hk : k' = k
    · simp [dictGet, hk] at h
    · simp only [dictGet, hk, if_false, List.cons_append] at h ⊢
      exact ih h

theorem dictGet_eq_none_iff {β : Type} (d : List (String × β)) (k : String) :
    dictGet d k = none ↔ k ∉ d.map Prod.fst := by
  induction d with
  | nil => simp [dictGet]
  | cons p rest ih =>
    obtain ⟨k', v⟩ := p
    by_cases hk : k' = k
    · simp [dictGet, hk]
    · simp [dictGet, hk, ih, Ne.symm hk]

theorem dictGet_overwrite {β : Type} (d : List (String × β)) (k : String) (v : β) :
    dictGet (d.map (fun p => if p.1 = k then (k, v) else p)) k =
      if (dictGet d k).isSome then some v else none := by
  induction d with
  | nil => simp [dictGet]
  | cons p rest ih =>
    obtain ⟨k', w⟩ := p
    by_cases hk : k' = k
    · subst hk
      have hhead : (fun p => if p.1 = k' then (k', v) else p) ((k', w) : String × β) = (k', v) := by
        simp
      simp only [List.map_cons, hhead]
      simp [dictGet]
    · simp only [List.map_cons]
      simp only [hk, if_false]
      simp only [dictGet, hk, if_false]
      exact ih

theorem dictGet_dictInsert_self {β : Type} (d : List (String × β)) (k : String) (v : β) :
    dictGet (dictInsert d k v) k = some v := by
  by_cases h : (dictGet d k).isSome
  · simp only [dictInsert, h, if_true]
    rw [dictGet_overwrite, if_pos h]
  · have hn : dictGet d k = none := by
      cases hd : dictGet d k
      · rfl
      · simp [hd] at h
    simp only [dictInsert, hn, Option.isSome_none, Bool.false_eq_true, if_false]
    rw [dictGet_append_of_none d [(k, v)] k hn]
    simp [dictGet]

theorem dictInsert_keys {β : Type} (d : List (String × β)) (k : String) (v : β) :
    (dictInsert d k v).map Prod.fst =
      if (dictGet d k).isSome then d.map Prod.fst
      else d.map Prod.fst ++ [k] := by
  unfold dictInsert
  by_cases h : (dictGet d k).isSome
  · simp only [h, if_true, List.map_map]
    apply List.map_congr_left
    intro p _
    by_cases hp : p.1 = k
    · simp [hp]
    · simp [hp]
  · simp [h]

theorem dictInsert_of_not_mem {β : Type} (d : List (String × β)) (k : String) (v : β)
    (h : k ∉ d.map Prod.fst) : dictInsert d k v = d ++ [(k, v)] := by
  unfold dictInsert
  rw [(dictGet_eq_none_iff d k).2 h]
  simp

theorem mem_keys_dictInsert {β : Type} (d : List (String × β)) (k : String) (v : β)
    (a : String) (h : a ∈ d.map Prod.fst) :
    a ∈ (dictInsert d k v).map Prod.fst := by
  rw [dictInsert_keys]
  split
  · exact h
  · exact List.mem_append_left _ h

theorem self_mem_keys_dictInsert {β : Type} (d : List (String × β)) (k : String) (v : β) :
    k ∈ (dictInsert d k v).map Prod.fst := by
  rw [dictInsert_keys]
  split
  · rename_i h
    by_contra hk
    rw [(dictGet_eq_none_iff d k).2 hk] at h
    simp at h
  · simp

theorem chunks25_nil : SF.chunks25 [] = [] := by
  simp [SF.chunks25]

theorem chunks25_cons (x : String) (xs : List String) :
    SF.chunks25 (x :: xs) =
      ((x :: xs).take 25) :: SF.chunks25 ((x :: xs).drop 25) := by
  rw [SF.chunks25]

theorem chunks25_join : ∀ l : List String, (SF.chunks25 l).flatten = l
  | [] => by simp [chunks25_nil]
  | x :: xs => by
    rw [chunks25_cons, List.flatten_cons]
    rw [chunks25_join ((x :: xs).drop 25)]
    exact List.take_append_drop 25 (x :: xs)
  termination_by l => l.length
  decreasing_by
    simp [List.length_drop]
    omega

theorem chunks25_length_le : ∀ l : List String, ∀ b ∈ SF.chunks25 l, b.length ≤ 25
  | [] => by simp [chunks25_nil]
  | x :: xs => by
    rw [chunks25_cons]
    intro b hb
    rcases List.mem_cons.mp hb with h | h
    · subst h
      simp [List.length_take]
    · exact chunks25_length_le ((x :: xs).drop 25) b h
  termination_by l => l.length
  decreasing_by
    simp [List.length_drop]
    omega

theorem chunks25_of_short (l : List String) (hne : l ≠ []) (hle : l.length ≤ 25) :
    SF.chunks25 l = [l] := by
  cases l with
  | nil => simp at hne
  | cons x xs =>
    rw [chunks25_cons]
    rw [List.take_of_length_le hle, List.drop_eq_nil_of_le hle, chunks25_nil]

theorem chunks25_of_30 (l : List String) (h : l.length = 30) :
    SF.chunks25 l = [l.take 25, l.drop 25] := by
  cases l with
  | nil => simp at h
  | cons x xs =>
    rw [chunks25_cons]
    have hlen : ((x :: xs).drop 25).length = 5 := by
      rw [List.length_drop, h]
    have hne : (x :: xs).drop 25 ≠ [] := by
      intro hnil
      rw [hnil] at hlen
      simp at hlen
    rw [chunks25_of_short ((x :: xs).drop 25) hne (by omega)]

theorem applyItem_calls (st : SF.BatchState) (it : SF.CompositeItem) :
    (SF.applyItem st it).calls = st.calls := by
  cases h : it.outcome <;> simp [SF.applyItem, h]

theorem processItems_calls : ∀ (items : List SF.CompositeItem) (st : SF.BatchState),
    (SF.processItems st items).calls = st.calls
  | [], _ => rfl
  | it :: rest, st => by
    show (SF.processItems (SF.applyItem st it) rest).calls = st.calls
    rw [processItems_calls rest (SF.applyItem st it), applyItem_calls]

theorem applySeq_calls (env : SF.VendorEnv) (st : SF.BatchState) (n : String) :
    (SF.applySeq env st n).calls = st.calls ++ [SF.VendorCall.describeCall n] := by
  cases h : env.describeObject n <;> simp [SF.applySeq, h]

theorem processSeq_calls : ∀ (ns : List String) (env : SF.VendorEnv) (st : SF.BatchState),
    (SF.processSeq env st ns).calls = st.calls ++ ns.map SF.VendorCall.describeCall
  | [], _, _ => by simp [SF.processSeq]
  | n :: rest, env, st => by
    show (SF.processSeq env (SF.applySeq env st n) rest).calls = _
    rw [processSeq_calls rest env (SF.applySeq env st n), applySeq_calls]
    simp

theorem compositeBatchesOf_append (c1 c2 : List SF.VendorCall) :
    SF.compositeBatchesOf (c1 ++ c2) =
      SF.compositeBatchesOf c1 ++ SF.compositeBatchesOf c2 := by
  simp [SF.compositeBatchesOf, List.filterMap_append]

theorem compositeBatchesOf_describeCalls (ns : List String) :
    SF.compositeBatchesOf (ns.map SF.VendorCall.describeCall) = [] := by
  induction ns with
  | nil => rfl
  | cons n rest ih => simpa [SF.compositeBatchesOf] using ih

theorem processBatch_compositeBatches (env : SF.VendorEnv) (st : SF.BatchState)
    (b : List String) :
    SF.compositeBatchesOf (SF.processBatch env st b).calls =
      SF.compositeBatchesOf st.calls ++ [b] := by
  cases h : env.composite b with
  | response items =>
    simp only [SF.processBatch, h]
    rw [processItems_calls]
    simp [compositeBatchesOf_append, SF.compositeBatchesOf]
  | raised =>
    simp only [SF.processBatch, h]
    rw [processSeq_calls]
    simp [compositeBatchesOf_append, compositeBatchesOf_describeCalls,
      SF.compositeBatchesOf]

theorem processBatches_compositeBatches :
    ∀ (bs : List (List String)) (env : SF.VendorEnv) (st : SF.BatchState),
    SF.compositeBatchesOf (SF.processBatches env st bs).calls =
      SF.compositeBatchesOf st.calls ++ bs
  | [], _, _ => by simp [SF.processBatches]
  | b :: rest, env, st => by
    show SF.compositeBatchesOf
      (SF.processBatches env (SF.processBatch env st b) rest).calls = _
    rw [processBatches_compositeBatches rest env (SF.processBatch env st b),
      processBatch_compositeBatches]
    simp

/-- C5: `describe_objects` splits its input into consecutive batches of
at most 25 and issues exactly one composite call per batch: the issued
composite batches are exactly the chunks of the input (which
concatenate back to the input and each have length at most 25), and a
30-name input yields exactly the two composite calls for the first 25
and the remaining 5 names. -/
theorem C5_describe_objects_batching (env : SF.VendorEnv) (names : List String) :
    SF.compositeBatchesOf (SF.describe_objects env names).calls =
      SF.chunks25 names ∧
    (SF.chunks25 names).flatten = names ∧
    (∀ b ∈ SF.chunks25 names, b.length ≤ 25) ∧
    (names.length = 30 →
      SF.compositeBatchesOf (SF.describe_objects env names).calls =
        [names.take 25, names.drop 25]) := by
  have hmain : SF.compositeBatchesOf (SF.describe_objects env names).calls =
      SF.chunks25 names := by
    cases names with
    | nil => simp [SF.describe_objects, chunks25_nil, SF.compositeBatchesOf]
    | cons x xs =>
      simp only [SF.describe_objects, List.isEmpty_cons, Bool.false_eq_true,
        if_false]
      rw [processBatches_compositeBatches]
      simp [SF.compositeBatchesOf]
  refine ⟨hmain, chunks25_join names, chunks25_length_le names, ?_⟩
  intro h30
  rw [hmain, chunks25_of_30 names h30]

/-- Witness for C5: 30 concrete names produce exactly the two composite
batches of 25 and 5 names. -/
theorem C5_describe_objects_batching_witness :
    names30.length = 30 ∧
    SF.compositeBatchesOf (SF.describe_objects mixedEnv names30).calls =
      [names30.take 25, names30.drop 25] := by
  have h30 : names30.length = 30 := by decide
  exact ⟨h30, (C5_describe_objects_batching mixedEnv names30).2.2.2 h30⟩

theorem StLe_refl (s : SF.BatchState) : SF.StLe s s :=
  ⟨List.Subset.refl _, List.Subset.refl _, List.Subset.refl _⟩

theorem StLe_trans {a b c : SF.BatchState} (h1 : SF.StLe a b) (h2 : SF.StLe b c) :
    SF.StLe a c :=
  ⟨h1.1.trans h2.1, h1.2.1.trans h2.2.1, h1.2.2.trans h2.2.2⟩

theorem applyItem_stle (st : SF.BatchState) (it : SF.CompositeItem) :
    SF.StLe st (SF.applyItem st it) := by
  cases h : it.outcome with
  | success d =>
    refine ⟨?_, ?_, ?_⟩ <;> simp [SF.applyItem, h, SF.errorNames]
  | failure body =>
    refine ⟨?_, ?_, ?_⟩
    · simp [SF.applyItem, h]
    · intro a ha
      simp only [SF.errorNames, SF.applyItem, h] at ha ⊢
      exact mem_keys_dictInsert _ _ _ a ha
    · simp [SF.applyItem, h]

theorem processItems_stle : ∀ (items : List SF.CompositeItem) (st : SF.BatchState),
    SF.StLe st (SF.processItems st items)
  | [], st => StLe_refl st
  | it :: rest, st =>
    StLe_trans (applyItem_stle st it) (processItems_stle rest (SF.applyItem st it))

theorem applySeq_stle (env : SF.VendorEnv) (st : SF.BatchState) (n : String) :
    SF.StLe st (SF.applySeq env st n) := by
  cases h : env.describeObject n with
  | ok d =>
    refine ⟨?_, ?_, ?_⟩ <;> simp [SF.applySeq, h, SF.errorNames]
  | error e =>
    refine ⟨?_, ?_, ?_⟩
    · simp [SF.applySeq, h]
    · intro a ha
      simp only [SF.errorNames, SF.applySeq, h] at ha ⊢
      exact mem_keys_dictInsert _ _ _ a ha
    · simp [SF.applySeq, h]

theorem processSeq_stle : ∀ (ns : List String) (env : SF.VendorEnv) (st : SF.BatchState),
    SF.StLe st (SF.processSeq env st ns)
  | [], _, st => StLe_refl st
  | n :: rest, env, st =>
    StLe_trans (applySeq_stle env st n) (processSeq_stle rest env (SF.applySeq env st n))

theorem callsAppend_stle (st : SF.BatchState) (cs : List SF.VendorCall) :
    SF.StLe st { st with calls := st.calls ++ cs } := by
  refine ⟨?_, ?_, ?_⟩ <;> simp [SF.errorNames]

theorem processBatch_stle (env : SF.VendorEnv) (st : SF.BatchState) (b : List String) :
    SF.StLe st (SF.processBatch env st b) := by
  cases h : env.composite b with
  | response items =>
    simp only [SF.processBatch, h]
    exact StLe_trans (callsAppend_stle st [SF.VendorCall.compositeCall b])
      (processItems_stle items _)
  | raised =>
    simp only [SF.processBatch, h]
    exact StLe_trans (callsAppend_stle st [SF.VendorCall.compositeCall b])
      (processSeq_stle b env _)

theorem processBatches_stle : ∀ (bs : List (List String)) (env : SF.VendorEnv)
    (st : SF.BatchState), SF.StLe st (SF.processBatches env st bs)
  | [], _, st => StLe_refl st
  | b :: rest, env, st =>
    StLe_trans (processBatch_stle env st b)
      (processBatches_stle rest env (SF.processBatch env st b))

theorem processBatches_append (env : SF.VendorEnv) :
    ∀ (u v : List (List String)) (st : SF.BatchState),
    SF.processBatches env st (u ++ v) =
      SF.processBatches env (SF.processBatches env st u) v
  | [], _, _ => rfl
  | b :: rest, v, st => processBatches_append env rest v (SF.processBatch env st b)

theorem describe_objects_eq (env : SF.VendorEnv) (names : List String) :
    SF.describe_objects env names =
      SF.processBatches env {} (SF.chunks25 names) := by
  cases names with
  | nil => simp [SF.describe_objects, chunks25_nil, SF.processBatches]
  | cons x xs => simp [SF.describe_objects]

theorem applySeq_ok (env : SF.VendorEnv) (st : SF.BatchState) (n : String)
    (d : SF.ObjectDescribe) (h : env.describeObject n = .ok d) :
    (SF.applySeq env st n).results = st.results ++ [d] ∧
    (SF.applySeq env st n).errors = st.errors := by
  simp [SF.applySeq, h]

theorem applySeq_err (env : SF.VendorEnv) (st : SF.BatchState) (n : String)
    (e : SF.SfException) (h : env.describeObject n = .error e) :
    (SF.applySeq env st n).results = st.results ∧
    (SF.applySeq env st n).errors = dictInsert st.errors n (SF.seqErrorMsg e) := by
  simp [SF.applySeq, h]

theorem resultNames_subset {s t : SF.BatchState} (h : SF.StLe s t) :
    SF.resultNames s ⊆ SF.resultNames t :=
  List.map_subset _ h.1

theorem processSeq_covers (env : SF.VendorEnv)
    (hcoh : ∀ name d, env.describeObject name = .ok d → d.name = name) :
    ∀ (ns : List String) (st : SF.BatchState), ∀ n ∈ ns,
      SF.VendorCall.describeCall n ∈ (SF.processSeq env st ns).calls ∧
      ((∃ d, env.describeObject n = .ok d) →
        n ∈ SF.resultNames (SF.processSeq env st ns)) ∧
      ((∃ e, env.describeObject n = .error e) →
        n ∈ SF.errorNames (SF.processSeq env st ns))
  | [], _, n, hn => absurd hn (List.not_mem_nil n)
  | n0 :: rest, st, n, hn => by
    have hstep : SF.processSeq env st (n0 :: rest) =
        SF.processSeq env (SF.applySeq env st n0) rest := rfl
    rcases List.mem_cons.mp hn with heq | hmem
    · subst heq
      have hrest := processSeq_stle rest env (SF.applySeq env st n)
      refine ⟨?_, ?_, ?_⟩
      · rw [hstep]
        apply hrest.2.2
        rw [applySeq_calls]
        exact List.mem_append_right _ (List.mem_singleton.mpr rfl)
      · rintro ⟨d, hd⟩
        rw [hstep]
        apply resultNames_subset hrest
        have hres := (applySeq_ok env st n d hd).1
        have : d.name = n := hcoh n d hd
        simp [SF.resultNames, hres, this]
      · rintro ⟨e, he⟩
        rw [hstep]
        apply hrest.2.1
        have herr := (applySeq_err env st n e he).2
        simp only [SF.errorNames, herr]
        exact self_mem_keys_dictInsert _ _ _
    · rw [hstep]
      exact processSeq_covers env hcoh rest (SF.applySeq env st n0) n hmem

/-- C2: if the composite call for a batch of `describe_objects` raises,
every name of that batch gets a sequential `describe_object` call, and
lands in the results (on a successful describe whose body is named
after it) or in the errors map (on a failing describe) of the overall
call — the batch is never dropped. -/
theorem C2_composite_failure_fallback (env : SF.VendorEnv) (names : List String)
    (b : List String) (hb : b ∈ SF.chunks25 names)
    (hraise : env.composite b = .raised)
    (hcoh : ∀ name d, env.describeObject name = .ok d → d.name = name) :
    ∀ n ∈ b,
      SF.VendorCall.describeCall n ∈ (SF.describe_objects env names).calls ∧
      ((∃ d, env.describeObject n = .ok d) →
        n ∈ SF.resultNames (SF.describe_objects env names)) ∧
      ((∃ e, env.describeObject n = .error e) →
        n ∈ SF.errorNames (SF.describe_objects env names)) := by
  intro n hn
  obtain ⟨l1, l2, hsplit⟩ := List.append_of_mem hb
  rw [describe_objects_eq, hsplit, processBatches_append]
  have hstep : SF.processBatches env (SF.processBatches env {} l1) (b :: l2) =
      SF.processBatches env
        (SF.processBatch env (SF.processBatches env {} l1) b) l2 := rfl
  rw [hstep]
  set S1 := SF.processBatches env {} l1 with hS1
  have hbatch : SF.processBatch env S1 b =
      SF.processSeq env { S1 with calls := S1.calls ++ [SF.VendorCall.compositeCall b] } b := by
    simp only [SF.processBatch, hraise]
  have hcover := processSeq_covers env hcoh b
    { S1 with calls := S1.calls ++ [SF.VendorCall.compositeCall b] } n hn
  rw [← hbatch] at hcover
  have hrest := processBatches_stle l2 env (SF.processBatch env S1 b)
  refine ⟨hrest.2.2 hcover.1, ?_, ?_⟩
  · intro hd
    exact resultNames_subset hrest (hcover.2.1 hd)
  · intro he
    exact hrest.2.1 (hcover.2.2 he)

/-- Witness for C2: with an environment whose composite call always
raises, the names of the (single) batch are each described
sequentially; `"Account"` succeeds into results and `"Bad__c"` fails
into errors. -/
theorem C2_composite_failure_fallback_witness :
    ["Account", "Bad__c"] ∈ SF.chunks25 ["Account", "Bad__c"] ∧
    (SF.VendorCall.describeCall "Account" ∈
      (SF.describe_objects failingEnv ["Account", "Bad__c"]).calls ∧
     SF.VendorCall.describeCall "Bad__c" ∈
      (SF.describe_objects failingEnv ["Account", "Bad__c"]).calls ∧
     "Account" ∈ SF.resultNames (SF.describe_objects failingEnv ["Account", "Bad__c"]) ∧
     "Bad__c" ∈ SF.errorNames (SF.describe_objects failingEnv ["Account", "Bad__c"])) := by
  have hcoh : ∀ name d, failingEnv.describeObject name = .ok d → d.name = name := by
    intro name d hd
    by_cases hname : name = "Bad__c"
    · simp [failingEnv, hname] at hd
    · simp only [failingEnv, hname, if_false] at hd
      cases hd
      rfl
  have hb : ["Account", "Bad__c"] ∈ SF.chunks25 ["Account", "Bad__c"] := by
    rw [chunks25_of_short ["Account", "Bad__c"] (by decide) (by decide)]
    exact List.mem_singleton.mpr rfl
  have hAcc := C2_composite_failure_fallback failingEnv ["Account", "Bad__c"]
    ["Account", "Bad__c"] hb rfl hcoh "Account" (by decide)
  have hBad := C2_composite_failure_fallback failingEnv ["Account", "Bad__c"]
    ["Account", "Bad__c"] hb rfl hcoh "Bad__c" (by decide)
  refine ⟨hb, hAcc.1, hBad.1, ?_, ?_⟩
  · exact hAcc.2.1 ⟨{ name := "Account" }, rfl⟩
  · exact hBad.2.2 ⟨.salesforceError "NOT_FOUND: bad object", rfl⟩

theorem chunks25_two (l : List String) (h1 : 25 < l.length) (h2 : l.length ≤ 50) :
    SF.chunks25 l = [l.take 25, l.drop 25] := by
  cases l with
  | nil => simp at h1
  | cons x xs =>
    rw [chunks25_cons]
    have hlen : ((x :: xs).drop 25).length = (x :: xs).length - 25 := by
      simp [List.length_drop]
    have hne : (x :: xs).drop 25 ≠ [] := by
      intro hnil
      have h0 : ((x :: xs).drop 25).length = 0 := by
        rw [hnil]
        rfl
      rw [hlen] at h0
      omega
    rw [chunks25_of_short ((x :: xs).drop 25) hne (by omega)]

theorem processItems_perm (items : List SF.CompositeItem) :
    ∀ (st : SF.BatchState) (pr : List String),
    (pr ++ items.map SF.CompositeItem.referenceId).Nodup →
    (∀ it ∈ items, ∀ d, it.outcome = .success d → d.name = it.referenceId) →
    (SF.resultNames st ++ SF.errorNames st).Perm pr →
    (SF.resultNames (SF.processItems st items) ++
      SF.errorNames (SF.processItems st items)).Perm
      (pr ++ items.map SF.CompositeItem.referenceId) := by
  induction items with
  | nil =>
    intro st pr _ _ hinv
    simpa using hinv
  | cons it rest ih =>
    intro st pr hnd hcoh hinv
    have hstep : SF.processItems st (it :: rest) =
        SF.processItems (SF.applyItem st it) rest := rfl
    have htarget : pr ++ (it :: rest).map SF.CompositeItem.referenceId =
        (pr ++ [it.referenceId]) ++ rest.map SF.CompositeItem.referenceId := by
      simp
    rw [hstep, htarget]
    apply ih (SF.applyItem st it) (pr ++ [it.referenceId])
    · rw [← htarget]
      exact hnd
    · intro it2 hit2 d hd
      exact hcoh it2 (List.mem_cons_of_mem it hit2) d hd
    · cases ho : it.outcome with
      | success d =>
        have hdn : d.name = it.referenceId :=
          hcoh it (List.mem_cons_self it rest) d ho
        have hres : SF.resultNames (SF.applyItem st it) =
            SF.resultNames st ++ [it.referenceId] := by
          simp [SF.resultNames, SF.applyItem, ho, hdn]
        have herr : SF.errorNames (SF.applyItem st it) = SF.errorNames st := by
          simp [SF.errorNames, SF.applyItem, ho]
        rw [hres, herr]
        have h1 : ((SF.resultNames st ++ [it.referenceId]) ++ SF.errorNames st).Perm
            ((SF.resultNames st ++ SF.errorNames st) ++ [it.referenceId]) := by
          rw [List.append_assoc, List.append_assoc]
          exact List.Perm.append_left _ List.perm_append_comm
        exact h1.trans (hinv.append_right [it.referenceId])
      | failure body =>
        have hrpr : it.referenceId ∉ pr := by
          rw [List.nodup_append] at hnd
          intro hmem
          exact hnd.2.2 hmem (by simp)
        have hrerr : it.referenceId ∉ st.errors.map Prod.fst := by
          intro hmem
          have hm : it.referenceId ∈ SF.resultNames st ++ SF.errorNames st :=
            List.mem_append_right _ hmem
          exact hrpr (hinv.mem_iff.mp hm)
        have herr : SF.errorNames (SF.applyItem st it) =
            SF.errorNames st ++ [it.referenceId] := by
          simp only [SF.errorNames, SF.applyItem, ho]
          rw [dictInsert_of_not_mem _ _ _ hrerr]
          simp
        have hres : SF.resultNames (SF.applyItem st it) = SF.resultNames st := by
          simp [SF.resultNames, SF.applyItem, ho]
        rw [hres, herr, ← List.append_assoc]
        exact hinv.append_right [it.referenceId]

theorem processSeq_perm (env : SF.VendorEnv)
    (hcohS : ∀ name d, env.describeObject name = .ok d → d.name = name)
    (ns : List String) :
    ∀ (st : SF.BatchState) (pr : List String),
    (pr ++ ns).Nodup →
    (SF.resultNames st ++ SF.errorNames st).Perm pr →
    (SF.resultNames (SF.processSeq env st ns) ++
      SF.errorNames (SF.processSeq env st ns)).Perm (pr ++ ns) := by
  induction ns with
  | nil =>
    intro st pr _ hinv
    simpa using hinv
  | cons n rest ih =>
    intro st pr hnd hinv
    have hstep : SF.processSeq env st (n :: rest) =
        SF.processSeq env (SF.applySeq env st n) rest := rfl
    have htarget : pr ++ n :: rest = (pr ++ [n]) ++ rest := by
      simp
    rw [hstep, htarget]
    apply ih (SF.applySeq env st n) (pr ++ [n])
    · rw [← htarget]
      exact hnd
    · cases ho : env.describeObject n with
      | ok d =>
        have hdn : d.name = n := hcohS n d ho
        have hres : SF.resultNames (SF.applySeq env st n) =
            SF.resultNames st ++ [n] := by
          simp [SF.resultNames, (applySeq_ok env st n d ho).1, hdn]
        have herr : SF.errorNames (SF.applySeq env st n) = SF.errorNames st := by
          simp [SF.errorNames, (applySeq_ok env st n d ho).2]
        rw [hres, herr]
        have h1 : ((SF.resultNames st ++ [n]) ++ SF.errorNames st).Perm
            ((SF.resultNames st ++ SF.errorNames st) ++ [n]) := by
          rw [List.append_assoc, List.append_assoc]
          exact List.Perm.append_left _ List.perm_append_comm
        exact h1.trans (hinv.append_right [n])
      | error e =>
        have hrpr : n ∉ pr := by
          rw [List.nodup_append] at hnd
          intro hmem
          exact hnd.2.2 hmem (by simp)
        have hrerr : n ∉ st.errors.map Prod.fst := by
          intro hmem
          have hm : n ∈ SF.resultNames st ++ SF.errorNames st :=
            List.mem_append_right _ hmem
          exact hrpr (hinv.mem_iff.mp hm)
        have herr : SF.errorNames (SF.applySeq env st n) =
            SF.errorNames st ++ [n] := by
          simp only [SF.errorNames, (applySeq_err env st n e ho).2]
          rw [dictInsert_of_not_mem _ _ _ hrerr]
          simp
        have hres : SF.resultNames (SF.applySeq env st n) = SF.resultNames st := by
          simp [SF.resultNames, (applySeq_err env st n e ho).1]
        rw [hres, herr, ← List.append_assoc]
        exact hinv.append_right [n]

theorem processBatch_perm (env : SF.VendorEnv) (hcoh : SF.NameCoherent env)
    (b : List String) (hwf : SF.WellFormedResponse env b)
    (st : SF.BatchState) (pr : List String)
    (hnd : (pr ++ b).Nodup)
    (hinv : (SF.resultNames st ++ SF.errorNames st).Perm pr) :
    (SF.resultNames (SF.processBatch env st b) ++
      SF.errorNames (SF.processBatch env st b)).Perm (pr ++ b) := by
  cases h : env.composite b with
  | response items =>
    have hids : items.map SF.CompositeItem.referenceId = b := hwf items h
    simp only [SF.processBatch, h]
    have hthis := processItems_perm items
      { st with calls := st.calls ++ [SF.VendorCall.compositeCall b] } pr
      (by rw [hids]; exact hnd)
      (fun it hit d hd => hcoh.1 b items h it hit d hd)
      hinv
    rw [hids] at hthis
    exact hthis
  | raised =>
    simp only [SF.processBatch, h]
    exact processSeq_perm env hcoh.2 b
      { st with calls := st.calls ++ [SF.VendorCall.compositeCall b] } pr hnd hinv

theorem processBatches_perm (env : SF.VendorEnv) (hcoh : SF.NameCoherent env) :
    ∀ (bs : List (List String)) (st : SF.BatchState) (pr : List String),
    (∀ b ∈ bs, SF.WellFormedResponse env b) →
    (pr ++ bs.flatten).Nodup →
    (SF.resultNames st ++ SF.errorNames st).Perm pr →
    (SF.resultNames (SF.processBatches env st bs) ++
      SF.errorNames (SF.processBatches env st bs)).Perm (pr ++ bs.flatten) := by
  intro bs
  induction bs with
  | nil =>
    intro st pr _ _ hinv
    simpa using hinv
  | cons b rest ih =>
    intro st pr hwf hnd hinv
    have hstep : SF.processBatches env st (b :: rest) =
        SF.processBatches env (SF.processBatch env st b) rest := rfl
    have htarget : pr ++ (b :: rest).flatten = (pr ++ b) ++ rest.flatten := by
      simp
    rw [hstep, htarget]
    apply ih (SF.processBatch env st b) (pr ++ b)
    · intro b2 hb2
      exact hwf b2 (List.mem_cons_of_mem b hb2)
    · rw [← htarget]
      exact hnd
    · apply processBatch_perm env hcoh b (hwf b (List.mem_cons_self b rest)) st pr
      · rw [List.nodup_append] at hnd ⊢
        refine ⟨hnd.1, ?_, ?_⟩
        · have := hnd.2.1
          rw [List.flatten_cons, List.nodup_append] at this
          exact this.1
        · intro a ha hab
          have hmem : a ∈ (b :: rest).flatten := by
            rw [List.flatten_cons]
            exact List.mem_append_left _ hab
          exact hnd.2.2 ha hmem
      · exact hinv

theorem describe_objects_perm (env : SF.VendorEnv) (names : List String)
    (hnd : names.Nodup)
    (hwf : ∀ b ∈ SF.chunks25 names, SF.WellFormedResponse env b)
    (hcoh : SF.NameCoherent env) :
    (SF.resultNames (SF.describe_objects env names) ++
      SF.errorNames (SF.describe_objects env names)).Perm names := by
  rw [describe_objects_eq]
  have hmain := processBatches_perm env hcoh (SF.chunks25 names) {} [] hwf
    (by rw [List.nil_append, chunks25_join]; exact hnd)
    (by simp [SF.resultNames, SF.errorNames])
  rw [chunks25_join, List.nil_append] at hmain
  exact hmain

/-- C1 (amended): for a list of *distinct* object names, under the
vendor contract (well-formed composite responses, describes named after
their requests), every input name appears in exactly one of the two
outputs of `describe_objects` — the results list or the errors map —
never in both and never in neither, whether each batch's composite call
returns per-item outcomes or raises and is retried sequentially. -/
theorem C1_describe_objects_partition (env : SF.VendorEnv) (names : List String)
    (hnd : names.Nodup)
    (hwf : ∀ b ∈ SF.chunks25 names, SF.WellFormedResponse env b)
    (hcoh : SF.NameCoherent env) :
    ∀ n ∈ names,
      (n ∈ SF.resultNames (SF.describe_objects env names) ∧
       n ∉ SF.errorNames (SF.describe_objects env names)) ∨
      (n ∉ SF.resultNames (SF.describe_objects env names) ∧
       n ∈ SF.errorNames (SF.describe_objects env names)) := by
  intro n hn
  have hperm := describe_objects_perm env names hnd hwf hcoh
  have hcount : (SF.resultNames (SF.describe_objects env names) ++
      SF.errorNames (SF.describe_objects env names)).count n = names.count n :=
    hperm.count_eq n
  have h1 : names.count n = 1 := List.count_eq_one_of_mem hnd hn
  rw [List.count_append, h1] at hcount
  by_cases hres : n ∈ SF.resultNames (SF.describe_objects env names)
  · left
    refine ⟨hres, ?_⟩
    intro herr
    have ha : 0 < (SF.resultNames (SF.describe_objects env names)).count n :=
      List.count_pos_iff.mpr hres
    have hb : 0 < (SF.errorNames (SF.describe_objects env names)).count n :=
      List.count_pos_iff.mpr herr
    omega
  · right
    refine ⟨hres, ?_⟩
    have ha : (SF.resultNames (SF.describe_objects env names)).count n = 0 :=
      List.count_eq_zero.mpr hres
    have hb : 0 < (SF.errorNames (SF.describe_objects env names)).count n := by
      omega
    exact List.count_pos_iff.mp hb

/-- Witness for C1 (amended) on two distinct names against `mixedEnv`,
whose composite response succeeds for `"Account"` and fails per-item
for `"Bad__c"`. -/
theorem C1_describe_objects_partition_witness :
    (["Account", "Bad__c"] : List String).Nodup ∧
    ((("Account" ∈ SF.resultNames (SF.describe_objects mixedEnv ["Account", "Bad__c"]) ∧
       "Account" ∉ SF.errorNames (SF.describe_objects mixedEnv ["Account", "Bad__c"])) ∨
      ("Account" ∉ SF.resultNames (SF.describe_objects mixedEnv ["Account", "Bad__c"]) ∧
       "Account" ∈ SF.errorNames (SF.describe_objects mixedEnv ["Account", "Bad__c"]))) ∧
     (("Bad__c" ∈ SF.resultNames (SF.describe_objects mixedEnv ["Account", "Bad__c"]) ∧
       "Bad__c" ∉ SF.errorNames (SF.describe_objects mixedEnv ["Account", "Bad__c"])) ∨
      ("Bad__c" ∉ SF.resultNames (SF.describe_objects mixedEnv ["Account", "Bad__c"]) ∧
       "Bad__c" ∈ SF.errorNames (SF.describe_objects mixedEnv ["Account", "Bad__c"])))) := by
  have hnd : (["Account", "Bad__c"] : List String).Nodup := by decide
  have hwf : ∀ b ∈ SF.chunks25 ["Account", "Bad__c"],
      SF.WellFormedResponse mixedEnv b := by
    intro b hb items hresp
    simp only [mixedEnv] at hresp
    injection hresp with h
    subst h
    rw [List.map_map]
    exact (List.map_congr_left fun n _ => rfl).trans (List.map_id b)
  have hcoh : SF.NameCoherent mixedEnv := by
    constructor
    · intro batch items hresp it hit d hd
      simp only [mixedEnv] at hresp
      injection hresp with h
      subst h
      obtain ⟨n, _, rfl⟩ := List.mem_map.mp hit
      by_cases hb : n = "Bad__c"
      · simp [hb] at hd
      · simp only [hb, if_false] at hd
        injection hd with h2
        subst h2
        rfl
    · intro name d hd
      by_cases hb : name = "Bad__c"
      · simp [mixedEnv, hb] at hd
      · simp only [mixedEnv, hb, if_false] at hd
        injection hd with h2
        subst h2
        rfl
  exact ⟨hnd,
    C1_describe_objects_partition mixedEnv ["Account", "Bad__c"] hnd hwf hcoh
      "Account" (by decide),
    C1_describe_objects_partition mixedEnv ["Account", "Bad__c"] hnd hwf hcoh
      "Bad__c" (by decide)⟩

/-- Counterexample to C1 as stated: with the 26-name input `dupNames`
(the name `"Dup__c"` occurs in both batches), a successful composite
response for the first batch and a raised composite call plus failing
sequential describes for the second batch put `"Dup__c"` into the
results list *and* into the errors map — so without distinctness of
the input names, "never in both" fails. -/
theorem C1_counterexample :
    "Dup__c" ∈ dupNames ∧
    "Dup__c" ∈ SF.resultNames (SF.describe_objects dupEnv dupNames) ∧
    "Dup__c" ∈ SF.errorNames (SF.describe_objects dupEnv dupNames) := by
  have hchunks : SF.chunks25 dupNames = [dupNames.take 25, dupNames.drop 25] :=
    chunks25_two dupNames (by decide) (by decide)
  refine ⟨by decide, ?_, ?_⟩ <;>
  · rw [describe_objects_eq, hchunks]
    decide

theorem cacheLookup_cachePut_self (cache : SF.ObjectsCache) (key : String)
    (v : List SF.ObjectBasicInfo) (t now : Nat) (h : now < t + 300) :
    SF.cacheLookup (SF.cachePut cache key v t) key now = some v := by
  simp only [SF.cacheLookup, SF.cachePut]
  rw [dictGet_dictInsert_self]
  simp [h]

/-- C7: starting from a state where the key is not a live cache entry,
two `list_objects(use_cache=true)` calls against the same service
identity and unchanged vendor state, the second within the 300-second
TTL of the first, issue exactly one vendor global-describe call in
total (1 then 0), with the second call returning the cached list
unchanged and leaving the cache unchanged; and
`list_objects(use_cache=false)` issues a vendor call from any cache
state at any time. -/
theorem C7_list_objects_cache (svc : SF.SFService) (sobjects : List SF.RawSObject)
    (cache : SF.ObjectsCache) (t1 t2 : Nat)
    (hmiss : SF.cacheLookup cache (SF.cacheKey svc) t1 = none)
    (httl : t2 < t1 + 300) :
    (SF.list_objects svc sobjects cache t1 true).2.2 = 1 ∧
    (SF.list_objects svc sobjects
      (SF.list_objects svc sobjects cache t1 true).2.1 t2 true).2.2 = 0 ∧
    (SF.list_objects svc sobjects
      (SF.list_objects svc sobjects cache t1 true).2.1 t2 true).1 =
      (SF.list_objects svc sobjects cache t1 true).1 ∧
    (SF.list_objects svc sobjects
      (SF.list_objects svc sobjects cache t1 true).2.1 t2 true).2.1 =
      (SF.list_objects svc sobjects cache t1 true).2.1 ∧
    (∀ (cache2 : SF.ObjectsCache) (now2 : Nat),
      (SF.list_objects svc sobjects cache2 now2 false).2.2 = 1) := by
  have hfirst : SF.list_objects svc sobjects cache t1 true =
      (SF.transformSObjects sobjects,
       SF.cachePut cache (SF.cacheKey svc) (SF.transformSObjects sobjects) t1, 1) := by
    simp [SF.list_objects, hmiss]
  have hhit : SF.cacheLookup
      (SF.cachePut cache (SF.cacheKey svc) (SF.transformSObjects sobjects) t1)
      (SF.cacheKey svc) t2 = some (SF.transformSObjects sobjects) :=
    cacheLookup_cachePut_self cache (SF.cacheKey svc) _ t1 t2 httl
  have hsecond : SF.list_objects svc sobjects
      (SF.cachePut cache (SF.cacheKey svc) (SF.transformSObjects sobjects) t1)
      t2 true =
      (SF.transformSObjects sobjects,
       SF.cachePut cache (SF.cacheKey svc) (SF.transformSObjects sobjects) t1, 0) := by
    simp [SF.list_objects, hhit]
  rw [hfirst]
  refine ⟨rfl, ?_, ?_, ?_, ?_⟩
  · rw [hsecond]
  · rw [hsecond]
  · rw [hsecond]
  · intro cache2 now2
    simp [SF.list_objects]

/-- Witness for C7 at a concrete service, vendor state, the empty cache
and times 0 and 100. -/
theorem C7_list_objects_cache_witness :
    SF.cacheLookup [] (SF.cacheKey demoSvc) 0 = none ∧
    ((SF.list_objects demoSvc demoSObjects [] 0 true).2.2 = 1 ∧
     (SF.list_objects demoSvc demoSObjects
       (SF.list_objects demoSvc demoSObjects [] 0 true).2.1 100 true).2.2 = 0 ∧
     (SF.list_objects demoSvc demoSObjects
       (SF.list_objects demoSvc demoSObjects [] 0 true).2.1 100 true).1 =
       (SF.list_objects demoSvc demoSObjects [] 0 true).1 ∧
     (SF.list_objects demoSvc demoSObjects [] 0 false).2.2 = 1) := by
  have h := C7_list_objects_cache demoSvc demoSObjects [] 0 100 rfl (by omega)
  exact ⟨rfl, h.1, h.2.1, h.2.2.1, h.2.2.2.2 [] 0⟩

theorem mergeInto_append (a b : List DC.DataCloudEntityBasicInfo) :
    ∀ s, DC.mergeInto (a ++ b) s = DC.mergeInto b (DC.mergeInto a s) := by
  induction a with
  | nil => intro s; rfl
  | cons h rest ih =>
    intro s
    show DC.mergeInto (rest ++ b) (DC.dedupStep s h) = _
    rw [ih (DC.dedupStep s h)]
    rfl

theorem mergeInto_mem_iff : ∀ (L : List DC.DataCloudEntityBasicInfo)
    (acc : List DC.DataCloudEntityBasicInfo) (seen : List String)
    (e : DC.DataCloudEntityBasicInfo),
    e ∈ (DC.mergeInto L (acc, seen)).1 ↔
      e ∈ acc ∨ (e.name ∉ seen ∧
        L.find? (fun x => x.name == e.name) = some e) := by
  intro L
  induction L with
  | nil =>
    intro acc seen e
    simp [DC.mergeInto]
  | cons h rest ih =>
    intro acc seen e
    by_cases hs : h.name ∈ seen
    · have hstep : DC.mergeInto (h :: rest) (acc, seen) =
          DC.mergeInto rest (acc, seen) := by
        show DC.mergeInto rest (DC.dedupStep (acc, seen) h) = _
        simp [DC.dedupStep, hs]
      rw [hstep, ih]
      constructor
      · rintro (ha | ⟨hns, hfind⟩)
        · exact Or.inl ha
        · refine Or.inr ⟨hns, ?_⟩
          rw [List.find?_cons_of_neg]
          · exact hfind
          · simp only [beq_iff_eq]
            intro heq
            exact hns (heq ▸ hs)
      · rintro (ha | ⟨hns, hfind⟩)
        · exact Or.inl ha
        · refine Or.inr ⟨hns, ?_⟩
          rwa [List.find?_cons_of_neg] at hfind
          simp only [beq_iff_eq]
          intro heq
          exact hns (heq ▸ hs)
    · have hstep : DC.mergeInto (h :: rest) (acc, seen) =
          DC.mergeInto rest (acc ++ [h], seen ++ [h.name]) := by
        show DC.mergeInto rest (DC.dedupStep (acc, seen) h) = _
        simp [DC.dedupStep, hs]
      rw [hstep, ih]
      constructor
      · rintro (ha | ⟨hns, hfind⟩)
        · rcases List.mem_append.mp ha with ha2 | ha2
          · exact Or.inl ha2
          · have he : e = h := List.mem_singleton.mp ha2
            subst he
            refine Or.inr ⟨hs, ?_⟩
            rw [List.find?_cons_of_pos]
            simp
        · have hns1 : e.name ∉ seen := fun hm =>
            hns (List.mem_append_left _ hm)
          have hns2 : e.name ≠ h.name := fun hm =>
            hns (List.mem_append_right _ (List.mem_singleton.mpr hm))
          refine Or.inr ⟨hns1, ?_⟩
          rw [List.find?_cons_of_neg]
          · exact hfind
          · simp only [beq_iff_eq]
            intro heq
            exact hns2 heq.symm
      · rintro (ha | ⟨hns, hfind⟩)
        · exact Or.inl (List.mem_append_left _ ha)
        · by_cases hhe : h.name = e.name
          · rw [List.find?_cons_of_pos _ (by simpa using hhe)] at hfind
            have he : h = e := Option.some.inj hfind
            subst he
            exact Or.inl (List.mem_append_right _ (List.mem_singleton.mpr rfl))
          · rw [List.find?_cons_of_neg _ (by simpa using hhe)] at hfind
            refine Or.inr ⟨?_, hfind⟩
            intro hm
            rcases List.mem_append.mp hm with hm2 | hm2
            · exact hns hm2
            · exact hhe (List.mem_singleton.mp hm2).symm

theorem mergeInto_nodup : ∀ (L : List DC.DataCloudEntityBasicInfo)
    (acc : List DC.DataCloudEntityBasicInfo) (seen : List String),
    seen = acc.map DC.DataCloudEntityBasicInfo.name →
    (acc.map DC.DataCloudEntityBasicInfo.name).Nodup →
    ((DC.mergeInto L (acc, seen)).1.map DC.DataCloudEntityBasicInfo.name).Nodup := by
  intro L
  induction L with
  | nil =>
    intro acc seen _ hnd
    exact hnd
  | cons h rest ih =>
    intro acc seen hseen hnd
    by_cases hs : h.name ∈ seen
    · have hstep : DC.mergeInto (h :: rest) (acc, seen) =
          DC.mergeInto rest (acc, seen) := by
        show DC.mergeInto rest (DC.dedupStep (acc, seen) h) = _
        simp [DC.dedupStep, hs]
      rw [hstep]
      exact ih acc seen hseen hnd
    · have hstep : DC.mergeInto (h :: rest) (acc, seen) =
          DC.mergeInto rest (acc ++ [h], seen ++ [h.name]) := by
        show DC.mergeInto rest (DC.dedupStep (acc, seen) h) = _
        simp [DC.dedupStep, hs]
      rw [hstep]
      apply ih (acc ++ [h]) (seen ++ [h.name])
      · rw [hseen, List.map_append]
        rfl
      · rw [List.map_append, List.nodup_append]
        refine ⟨hnd, List.nodup_singleton _, ?_⟩
        intro a ha hab
        have : a = h.name := by simpa using hab
        subst this
        exact hs (hseen ▸ ha)

theorem list_dmo_entities_eq (gl ml : List DC.DataCloudEntityBasicInfo) :
    DC._list_dmo_entities true (.ok gl) (.ok ml) =
      (DC.mergeInto (gl ++ ml) ([], [])).1 := by
  rw [mergeInto_append]
  simp [DC._list_dmo_entities]

/-- C8: `_list_dmo_entities`, with credentials present and both fetch
paths succeeding, merges the two lists into one in which each entity
name occurs exactly once (the name list is duplicate-free), every
fetched name is represented, and each kept record is the first record
with its name in the data-graph list followed by the metadata list —
so data-graph entries win over metadata entries of the same name. -/
theorem C8_list_dmo_merge (gl ml : List DC.DataCloudEntityBasicInfo) :
    ((DC._list_dmo_entities true (.ok gl) (.ok ml)).map
      DC.DataCloudEntityBasicInfo.name).Nodup ∧
    (∀ e ∈ gl ++ ml, ∃ e2 ∈ DC._list_dmo_entities true (.ok gl) (.ok ml),
      e2.name = e.name) ∧
    (∀ e2 ∈ DC._list_dmo_entities true (.ok gl) (.ok ml),
      (gl ++ ml).find? (fun x => x.name == e2.name) = some e2) := by
  rw [list_dmo_entities_eq]
  refine ⟨mergeInto_nodup (gl ++ ml) [] [] rfl (by simp), ?_, ?_⟩
  · intro e he
    have hsome : ((gl ++ ml).find? (fun x => x.name == e.name)).isSome := by
      rw [List.find?_isSome]
      exact ⟨e, he, by simp⟩
    obtain ⟨e0, hfind⟩ := Option.isSome_iff_exists.mp hsome
    have hname : e0.name = e.name := by
      have := List.find?_some hfind
      simpa using this
    have hfind0 : (gl ++ ml).find? (fun x => x.name == e0.name) = some e0 := by
      rw [hname]
      exact hfind
    refine ⟨e0, ?_, hname⟩
    exact (mergeInto_mem_iff (gl ++ ml) [] [] e0).mpr
      (Or.inr ⟨by simp, hfind0⟩)
  · intro e2 hmem
    rcases (mergeInto_mem_iff (gl ++ ml) [] [] e2).mp hmem with h | ⟨_, hfind⟩
    · simp at h
    · exact hfind

/-- Witness for C8: the data-graph record for `Account__dlm` wins over
the metadata record of the same name, `Contact__dlm` is kept, and the
merged name list is duplicate-free. -/
theorem C8_list_dmo_merge_witness :
    ((DC._list_dmo_entities true (.ok [dmoGraphAccount])
      (.ok [dmoMetaAccount, dmoMetaContact])).map
        DC.DataCloudEntityBasicInfo.name).Nodup ∧
    ([dmoGraphAccount] ++ [dmoMetaAccount, dmoMetaContact]).find?
      (fun x => x.name == dmoGraphAccount.name) = some dmoGraphAccount ∧
    ([dmoGraphAccount] ++ [dmoMetaAccount, dmoMetaContact]).find?
      (fun x => x.name == dmoMetaContact.name) = some dmoMetaContact := by
  have h := C8_list_dmo_merge [dmoGraphAccount] [dmoMetaAccount, dmoMetaContact]
  refine ⟨h.1, ?_, ?_⟩
  · exact h.2.2 dmoGraphAccount (by decide)
  · exact h.2.2 dmoMetaContact (by decide)

theorem append_rel_inj {a b : String} (h : a ++ "_rel" = b ++ "_rel") : a = b := by
  have hd := congrArg String.data h
  simp only [String.data_append] at hd
  exact String.ext (List.append_cancel_right hd)

theorem synthFkRels_cons (g : DC.DataCloudFieldInfo)
    (rest : List DC.DataCloudFieldInfo)
    (rels : List DC.DataCloudRelationshipInfo) :
    DC.synthFkRels (g :: rest) rels = DC.synthFkRels rest (DC.synthStep rels g) := rfl

theorem synthStep_filter_ne (rels : List DC.DataCloudRelationshipInfo)
    (g : DC.DataCloudFieldInfo) (nm : String) (hne : g.name ++ "_rel" ≠ nm) :
    (DC.synthStep rels g).filter (fun r => r.name == nm) =
      rels.filter (fun r => r.name == nm) := by
  unfold DC.synthStep
  split
  · split
    · rfl
    · rw [List.filter_append]
      have hf : List.filter (fun r => r.name == nm) [DC.synthRelOf g] = [] := by
        simp [DC.synthRelOf, hne]
      rw [hf, List.append_nil]
  · rfl

theorem synthFkRels_filter_untouched (nm : String) :
    ∀ (fs : List DC.DataCloudFieldInfo) (rels : List DC.DataCloudRelationshipInfo),
    (∀ g ∈ fs, g.name ++ "_rel" ≠ nm) →
    (DC.synthFkRels fs rels).filter (fun r => r.name == nm) =
      rels.filter (fun r => r.name == nm) := by
  intro fs
  induction fs with
  | nil => intro rels _; rfl
  | cons g rest ih =>
    intro rels hall
    rw [synthFkRels_cons]
    rw [ih (DC.synthStep rels g)
      (fun g2 hg2 => hall g2 (List.mem_cons_of_mem g hg2))]
    exact synthStep_filter_ne rels g nm (hall g (List.mem_cons_self g rest))

theorem synthStep_filter_at (rels : List DC.DataCloudRelationshipInfo)
    (f : DC.DataCloudFieldInfo)
    (hfk : f.is_foreign_key = true) (htr : truthyOptStr f.reference_to = true) :
    (DC.synthStep rels f).filter (fun r => r.name == f.name ++ "_rel") =
      if (rels.filter (fun r => r.name == f.name ++ "_rel")).isEmpty then
        [DC.synthRelOf f]
      else rels.filter (fun r => r.name == f.name ++ "_rel") := by
  unfold DC.synthStep
  rw [if_pos ⟨hfk, htr⟩]
  by_cases hany : rels.any (fun r => r.name == f.name ++ "_rel") = true
  · rw [if_pos hany]
    obtain ⟨r, hr, hp⟩ := List.any_eq_true.mp hany
    have hmem : r ∈ rels.filter (fun r => r.name == f.name ++ "_rel") :=
      List.mem_filter.mpr ⟨hr, hp⟩
    have hne : ¬ (rels.filter (fun r => r.name == f.name ++ "_rel")).isEmpty = true := by
      intro hemp
      rw [List.isEmpty_iff.mp hemp] at hmem
      simp at hmem
    rw [if_neg hne]
  · rw [if_neg hany]
    have hnil : rels.filter (fun r => r.name == f.name ++ "_rel") = [] := by
      rw [List.filter_eq_nil_iff]
      intro r hr hp
      exact hany (List.any_eq_true.mpr ⟨r, hr, hp⟩)
    have hemp : (rels.filter (fun r => r.name == f.name ++ "_rel")).isEmpty = true := by
      rw [hnil]
      rfl
    rw [if_pos hemp, List.filter_append, hnil, List.nil_append]
    simp [DC.synthRelOf]

theorem synthFkRels_filter_split (f : DC.DataCloudFieldInfo)
    (hfk : f.is_foreign_key = true) (htr : truthyOptStr f.reference_to = true)
    (L1 L2 : List DC.DataCloudFieldInfo)
    (rels : List DC.DataCloudRelationshipInfo)
    (h1 : ∀ g ∈ L1, g.name ++ "_rel" ≠ f.name ++ "_rel")
    (h2 : ∀ g ∈ L2, g.name ++ "_rel" ≠ f.name ++ "_rel") :
    (DC.synthFkRels (L1 ++ f :: L2) rels).filter
      (fun r => r.name == f.name ++ "_rel") =
      if (rels.filter (fun r => r.name == f.name ++ "_rel")).isEmpty then
        [DC.synthRelOf f]
      else rels.filter (fun r => r.name == f.name ++ "_rel") := by
  have happ : DC.synthFkRels (L1 ++ f :: L2) rels =
      DC.synthFkRels L2 (DC.synthStep (DC.synthFkRels L1 rels) f) := by
    simp [DC.synthFkRels, List.foldl_append, List.foldl_cons]
  rw [happ]
  rw [synthFkRels_filter_untouched (f.name ++ "_rel") L2 _ h2]
  rw [synthStep_filter_at _ f hfk htr]
  rw [synthFkRels_filter_untouched (f.name ++ "_rel") L1 rels h1]

theorem filter_eq_single_of_nodup (nm : String)
    (r0 : DC.DataCloudRelationshipInfo) (hname : r0.name = nm) :
    ∀ l : List DC.DataCloudRelationshipInfo,
    (l.map DC.DataCloudRelationshipInfo.name).Nodup → r0 ∈ l →
    l.filter (fun r => r.name == nm) = [r0] := by
  intro l
  induction l with
  | nil =>
    intro _ hr0
    simp at hr0
  | cons h rest ih =>
    intro hnd hr0
    simp only [List.map_cons, List.nodup_cons] at hnd
    rcases List.mem_cons.mp hr0 with he | hmem
    · subst he
      have hrest : rest.filter (fun r => r.name == nm) = [] := by
        rw [List.filter_eq_nil_iff]
        intro r hr hp
        apply hnd.1
        have : r.name = r0.name := by
          rw [hname]
          simpa using hp
        exact List.mem_map.mpr ⟨r, hr, this⟩
      rw [List.filter_cons, if_pos (by simpa using hname), hrest]
    · have hh : h.name ≠ nm := by
        intro heq
        apply hnd.1
        exact List.mem_map.mpr ⟨r0, hmem, by rw [hname, heq]⟩
      rw [List.filter_cons, if_neg (by simpa using hh)]
      exact ih hnd.2 hmem

/-- C9: for every transformed field flagged as a foreign key with a
truthy (non-absent, non-empty) reference target, and with field names
and explicit relationship names duplicate-free, the output relationship
list of `_transform_entity_describe` contains exactly one relationship
named `field.name + "_rel"`; when no explicit relationship of that
derived name exists it is the synthesized one pointing at the
referenced entity, and when an explicit one exists it is kept alone (no
duplicate is added). -/
theorem C9_fk_relationship_synthesis (entity : DC.RawDCEntity)
    (hfnd : ((entity.fields.map DC.transformField).map
      DC.DataCloudFieldInfo.name).Nodup)
    (hrnd : ((entity.relationships.map DC.transformRel).map
      DC.DataCloudRelationshipInfo.name).Nodup)
    (f : DC.DataCloudFieldInfo)
    (hf : f ∈ entity.fields.map DC.transformField)
    (hfk : f.is_foreign_key = true)
    (htr : truthyOptStr f.reference_to = true) :
    ((DC._transform_entity_describe entity).relationships.filter
      (fun r => r.name == f.name ++ "_rel")).length = 1 ∧
    ((∀ rel ∈ entity.relationships.map DC.transformRel,
        rel.name ≠ f.name ++ "_rel") →
      (DC._transform_entity_describe entity).relationships.filter
        (fun r => r.name == f.name ++ "_rel") = [DC.synthRelOf f]) ∧
    (∀ rel0 ∈ entity.relationships.map DC.transformRel,
      rel0.name = f.name ++ "_rel" →
      (DC._transform_entity_describe entity).relationships.filter
        (fun r => r.name == f.name ++ "_rel") = [rel0]) := by
  obtain ⟨L1, L2, hsplit⟩ := List.append_of_mem hf
  rw [hsplit, List.map_append, List.map_cons, List.nodup_append] at hfnd
  have hn1 : ∀ g ∈ L1, g.name ++ "_rel" ≠ f.name ++ "_rel" := by
    intro g hg heq
    have hge := append_rel_inj heq
    refine hfnd.2.2 (List.mem_map.mpr ⟨g, hg, rfl⟩) ?_
    rw [hge]
    exact List.mem_cons_self _ _
  have hn2 : ∀ g ∈ L2, g.name ++ "_rel" ≠ f.name ++ "_rel" := by
    intro g hg heq
    have hge := append_rel_inj heq
    exact (List.nodup_cons.mp hfnd.2.1).1 (List.mem_map.mpr ⟨g, hg, hge⟩)
  have hrels : (DC._transform_entity_describe entity).relationships =
      DC.synthFkRels (entity.fields.map DC.transformField)
        (entity.relationships.map DC.transformRel) := rfl
  have hmain : (DC._transform_entity_describe entity).relationships.filter
      (fun r => r.name == f.name ++ "_rel") =
      if ((entity.relationships.map DC.transformRel).filter
          (fun r => r.name == f.name ++ "_rel")).isEmpty then
        [DC.synthRelOf f]
      else (entity.relationships.map DC.transformRel).filter
          (fun r => r.name == f.name ++ "_rel") := by
    rw [hrels, hsplit]
    exact synthFkRels_filter_split f hfk htr L1 L2 _ hn1 hn2
  refine ⟨?_, ?_, ?_⟩
  · by_cases hemp : ((entity.relationships.map DC.transformRel).filter
        (fun r => r.name == f.name ++ "_rel")).isEmpty = true
    · rw [hmain, if_pos hemp]
      rfl
    · rw [hmain, if_neg hemp]
      have hne : (entity.relationships.map DC.transformRel).filter
          (fun r => r.name == f.name ++ "_rel") ≠ [] := by
        intro hh
        rw [hh] at hemp
        exact hemp rfl
      obtain ⟨r0, hr0⟩ := List.exists_mem_of_ne_nil _ hne
      have hr0m := List.mem_filter.mp hr0
      have hr0n : r0.name = f.name ++ "_rel" := by
        simpa using hr0m.2
      rw [filter_eq_single_of_nodup (f.name ++ "_rel") r0 hr0n
        (entity.relationships.map DC.transformRel) hrnd hr0m.1]
      rfl
  · intro hnone
    have hnil : (entity.relationships.map DC.transformRel).filter
        (fun r => r.name == f.name ++ "_rel") = [] := by
      rw [List.filter_eq_nil_iff]
      intro r hr hp
      exact hnone r hr (by simpa using hp)
    rw [hmain, if_pos (by rw [hnil]; rfl)]
  · intro rel0 hrel0 hrel0n
    have hone := filter_eq_single_of_nodup (f.name ++ "_rel") rel0 hrel0n
      (entity.relationships.map DC.transformRel) hrnd hrel0
    have hnemp : ¬ ((entity.relationships.map DC.transformRel).filter
        (fun r => r.name == f.name ++ "_rel")).isEmpty = true := by
      rw [hone]
      intro hh
      exact absurd hh (by simp)
    rw [hmain, if_neg hnemp, hone]

/-- Witness for C9 at `demoEntity`: the foreign-key field
`AccountId__c` referencing `Account__dlm` yields exactly one
relationship named `AccountId__c_rel`, the synthesized one. -/
theorem C9_fk_relationship_synthesis_witness :
    ((DC._transform_entity_describe demoEntity).relationships.filter
      (fun r => r.name ==
        (DC.transformField { name := some "AccountId__c"
                             isForeignKey := true
                             referenceTo := some "Account__dlm" }).name
          ++ "_rel")).length = 1 ∧
    (DC._transform_entity_describe demoEntity).relationships.filter
      (fun r => r.name ==
        (DC.transformField { name := some "AccountId__c"
                             isForeignKey := true
                             referenceTo := some "Account__dlm" }).name
          ++ "_rel") =
      [DC.synthRelOf (DC.transformField { name := some "AccountId__c"
                                          isForeignKey := true
                                          referenceTo := some "Account__dlm" })] := by
  have h := C9_fk_relationship_synthesis demoEntity (by decide) (by decide)
    (DC.transformField { name := some "AccountId__c"
                         isForeignKey := true
                         referenceTo := some "Account__dlm" })
    (by decide) (by decide) (by decide)
  exact ⟨h.1, h.2.1 (by decide)⟩
